import Mathlib

/-!
# Dressage Visualizer — verification of the specification against the code

Shallow embedding of the dressage-arena visualizer (a React/SVG page).
Numbers are modelled as rationals (`ℚ`): every coordinate computed by the
program is an exact small rational, and the arithmetic involved (`+`, `*`,
division by the constant 40) is exact on those values.  Step numbers are
naturals.  The JavaScript `Set` of hidden steps is modelled as a `Finset ℕ`
(the program only uses `has`, `add`, `delete`, `size`, and set construction;
no behaviour depends on insertion order).  Functions that `throw` are
modelled in `Except String`; React components that render `null` are
modelled as returning `none`.
-/

namespace Dressage

/-- Arena constants (source: `const ARENA_W = 200; const ARENA_H = 400`). -/
def ARENA_W : ℚ := 200

/-- Arena height in drawing units. -/
def ARENA_H : ℚ := 400

/-- Outer padding around the arena (source: `const PAD = 24`). -/
def PAD : ℚ := 24

/-- Distance labels sit outside the rail (source: `const LABEL_OFFSET = 14`). -/
def LABEL_OFFSET : ℚ := 14

/-- Root SVG width (source: `const W = ARENA_W + PAD * 2`). -/
def Wsvg : ℚ := ARENA_W + PAD * 2

/-- Root SVG height (source: `const H = ARENA_H + PAD * 2`). -/
def Hsvg : ℚ := ARENA_H + PAD * 2

/-- Projector, x axis (source: `const Xpx = (x: number) => x + PAD`). -/
def Xpx (x : ℚ) : ℚ := x + PAD

/-- Projector, y axis (source: `const Ypx = (y: number) => y + PAD`). -/
def Ypx (y : ℚ) : ℚ := y + PAD

/-- `const Y_TOP_6 = (6 / 40) * ARENA_H`. -/
def Y_TOP_6 : ℚ := (6 / 40) * ARENA_H

/-- `const Y_MID_20 = (20 / 40) * ARENA_H`. -/
def Y_MID_20 : ℚ := (20 / 40) * ARENA_H

/-- `const Y_BOT_34 = (34 / 40) * ARENA_H`. -/
def Y_BOT_34 : ℚ := (34 / 40) * ARENA_H

/-- A 2D point in arena coordinates. -/
structure Pt where
  x : ℚ
  y : ℚ
deriving DecidableEq, Repr

/-- The Geometry Table `geom`: marker letter to its fixed arena position.
Absent letters give `none` (JS: `geom[id]` is `undefined`). -/
def geom : String → Option Pt
  | "C" => some ⟨ARENA_W / 2, 0⟩
  | "A" => some ⟨ARENA_W / 2, ARENA_H⟩
  | "K" => some ⟨0, Y_BOT_34⟩
  | "E" => some ⟨0, Y_MID_20⟩
  | "H" => some ⟨0, Y_TOP_6⟩
  | "F" => some ⟨ARENA_W, Y_BOT_34⟩
  | "B" => some ⟨ARENA_W, Y_MID_20⟩
  | "M" => some ⟨ARENA_W, Y_TOP_6⟩
  | "G" => some ⟨ARENA_W / 2, Y_TOP_6⟩
  | "X" => some ⟨ARENA_W / 2, Y_MID_20⟩
  | "D" => some ⟨ARENA_W / 2, Y_BOT_34⟩
  | _ => none

/-- `toPoints`: maps marker ids to their projected positions, throwing
`Unknown letter` on a missing id (the code then joins the pairs into the
SVG `points` string; we keep the list of projected pairs). -/
def toPoints (ids : List String) : Except String (List (ℚ × ℚ)) :=
  ids.mapM fun id =>
    match geom id with
    | none => .error ("Unknown letter " ++ id)
    | some p => .ok (Xpx p.x, Ypx p.y)

/-- Text-anchor values used by `labelPos`. -/
inductive Anchor where
  | middle
  | anchorEnd
  | anchorStart
deriving DecidableEq, Repr

/-- A label position, as returned by `labelPos`. -/
structure LabelP where
  x : ℚ
  y : ℚ
  anchor : Anchor
deriving DecidableEq, Repr

/-- `labelPos`: where a marker's letter label is drawn; throws on a
letter absent from `geom`. -/
def labelPos (id : String) : Except String LabelP :=
  match geom id with
  | none => .error ("Unknown letter " ++ id)
  | some p =>
    if id = "C" then .ok ⟨p.x, -LABEL_OFFSET, .middle⟩
    else if id = "A" then .ok ⟨p.x, ARENA_H + LABEL_OFFSET, .middle⟩
    else if id = "K" ∨ id = "E" ∨ id = "H" then .ok ⟨-LABEL_OFFSET, p.y, .anchorEnd⟩
    else if id = "F" ∨ id = "B" ∨ id = "M" then .ok ⟨ARENA_W + LABEL_OFFSET, p.y, .anchorStart⟩
    else .ok ⟨p.x, p.y, .middle⟩

/-- `const LETTERS`: the 11 marker letters drawn as labels. -/
def LETTERS : List String := ["C", "M", "B", "F", "H", "E", "K", "G", "X", "D", "A"]

/-- A circle in device coordinates, as emitted by `CircleAt`. -/
structure CircleShape where
  cx : ℚ
  cy : ℚ
  r : ℚ
deriving DecidableEq, Repr

/-- `CircleAt`: the `<circle>` element for a circle segment anchored at
marker `a`.  Returns `none` (renders nothing) when the marker is absent
from `geom`; otherwise the circle is horizontally centred on the arena
(`cx = Xpx (ARENA_W / 2)`), at the marker's projected y, with radius
`ARENA_W / 2`. -/
def CircleAt (a : String) : Option CircleShape :=
  match geom a with
  | none => none
  | some p => some ⟨Xpx (ARENA_W / 2), Ypx p.y, ARENA_W / 2⟩

/-- Circle direction tag (display-only in the code). -/
inductive Dir where
  | left
  | right
deriving DecidableEq, Repr

/-- A drawable path segment: polyline through markers, or circle at a
marker (source types `LineSeg` / `CircleSeg`). -/
inductive Segment where
  | line (waypoints : List String) (label : Option String) (step : ℕ)
  | circle (a : String) (direction : Dir) (label : Option String) (step : ℕ)
deriving DecidableEq, Repr

/-- The step number a segment belongs to. -/
def Segment.step : Segment → ℕ
  | .line _ _ s => s
  | .circle _ _ _ s => s

/-- The geometric output of drawing one segment. -/
inductive Rendered where
  | polyline (points : List (ℚ × ℚ))
  | circleOut (c : CircleShape)
deriving DecidableEq, Repr

/-- `DrawSegment`: a line segment becomes a polyline via `toPoints`
(which throws on an unknown letter); a circle segment becomes
`CircleAt seg.at` (which renders nothing on an unknown letter).  The
direction field of a circle segment is never read. -/
def DrawSegment (seg : Segment) : Except String (Option Rendered) :=
  match seg with
  | .line ws _ _ => (toPoints ws).map fun ps => some (.polyline ps)
  | .circle a _ _ _ => .ok ((CircleAt a).map Rendered.circleOut)

/-- `isStepVisible`: `(step) => !hiddenSteps.has(step)`. -/
def isStepVisible (hidden : Finset ℕ) (step : ℕ) : Bool :=
  !(decide (step ∈ hidden))

/-- `toggleStep`: delete `step` from the hidden set when `on`, insert it
when not. -/
def toggleStep (hidden : Finset ℕ) (step : ℕ) (b : Bool) : Finset ℕ :=
  if b then hidden.erase step else insert step hidden

/-- A finite sequence of `toggleStep` calls applied in order. -/
def applyToggles (hidden : Finset ℕ) (ops : List (ℕ × Bool)) : Finset ℕ :=
  ops.foldl (fun acc op => toggleStep acc op.1 op.2) hidden

/-- `stepsInSegments`: the distinct step numbers of the active test's
segments, sorted ascending (JS: `Array.from(set).sort((a, b) => a - b)`). -/
def stepsInSegments (segs : List Segment) : List ℕ :=
  ((segs.map Segment.step).toFinset).sort (· ≤ ·)

/-- `toggleAllSteps`: show-all clears the hidden set; hide-all replaces it
with the steps present in segments (`new Set(stepsInSegments)`). -/
def toggleAllSteps (segs : List Segment) (_hidden : Finset ℕ) (b : Bool) : Finset ℕ :=
  if b then ∅ else (stepsInSegments segs).toFinset

/-- The `useEffect` on `activeTestId`: switching the active test resets
the hidden set to empty, whatever it was. -/
def onActiveTestChanged (_prior : Finset ℕ) : Finset ℕ := ∅

/-- The segments the Renderer actually draws, in stored order (the code
maps over `segments` and emits `DrawSegment` exactly for the visible
ones, `null` otherwise). -/
def drawnSegments (segs : List Segment) (hidden : Finset ℕ) : List Segment :=
  segs.filter fun s => isStepVisible hidden s.step

/-- A procedural step row of the table (source type `StepRow`; `where`
is a Lean keyword, rendered here as `whereLoc`). -/
structure StepRow where
  step : ℕ
  whereLoc : String
  directive : String
  ideas : Option String := none
deriving DecidableEq, Repr

/-- A named test definition (source type `TestDef` in the page, whose
`rows`, `steps` and `segments` fields are all optional). -/
structure TestDef where
  id : String
  name : String
  rows : Option (List StepRow) := none
  steps : Option (List StepRow) := none
  segments : Option (List Segment) := none
deriving DecidableEq, Repr

/-- The `line` helper of the test data file: a line segment with no label. -/
def line (step : ℕ) (waypoints : List String) : Segment :=
  .line waypoints none step

/-- The `circle` helper of the test data file: a circle segment with no label. -/
def circle (step : ℕ) (a : String) (direction : Dir) : Segment :=
  .circle a direction none step

/-- The seeded test: USDF 2023 Introductory Level Test A, 12 step rows
over 9 step numbers and 8 segments (steps 1–8; step 9 has rows only). -/
def introA : TestDef where
  id := "introA"
  name := "USDF 2023 Introductory Level, Test A (20m x 40m)"
  rows := some
    [ ⟨1, "A", "Enter, working trot rising",
        some "Regularity, quality of trot; straightness, willing, calm transition"⟩
    , ⟨1, "Between X & C", "Medium walk", some "Regularity, quality of walk"⟩
    , ⟨2, "C", "Track right", some "Bend and balance; willing, calm transition"⟩
    , ⟨2, "M", "Working trot rising", none⟩
    , ⟨3, "A", "Circle right 20 meters, working trot rising",
        some "Regularity; shape and size of circle; bend; balance"⟩
    , ⟨4, "K - X - M", "Change rein, working trot rising",
        some "Regularity of trot; straightness; bend and balance in corner"⟩
    , ⟨5, "C", "Circle left 20 meters, working trot rising",
        some "Regularity; shape and size of circle; bend; balance"⟩
    , ⟨6, "Between C & H", "Medium walk",
        some "Willing, calm transition; regularity, quality"⟩
    , ⟨7, "H - X - F", "Free walk",
        some "Regularity, reach and ground cover with over track of free walk allowing complete freedom to stretch the neck forward and downward"⟩
    , ⟨8, "F - A", "Medium walk",
        some "Regularity, quality, willing, calm transition, bend and balance in turn straightness on centerline."⟩
    , ⟨8, "A", "Down centerline", none⟩
    , ⟨9, "X", "Halt and salute",
        some "Straightness; attentiveness; immobility (min. 3 seconds)"⟩
    ]
  segments := some
    [ line 1 ["A", "X", "C"]
    , line 2 ["C", "M"]
    , circle 3 "B" .right
    , line 4 ["K", "X", "M"]
    , circle 5 "E" .left
    , line 6 ["E", "C", "H"]
    , line 7 ["H", "X", "F"]
    , line 8 ["F", "A", "X"]
    ]

/-- The Test Definition Store `TESTS`, as an ordered id-to-definition map
(one seeded test). -/
def TESTS : List (String × TestDef) := [("introA", introA)]

/-- `Object.keys(tests)`: the store's ids in order. -/
def testIds : List String := TESTS.map Prod.fst

/-- `tests[id]`: plain store lookup; `none` models JS `undefined`. -/
def lookupTest (id : String) : Option TestDef :=
  (TESTS.find? fun p => p.1 == id).map Prod.snd

/-- `const activeTest = tests[activeTestId] ?? tests[testIds[0]]`: lookup
with silent fallback to the store's first test. -/
def activeTest (id : String) : Option TestDef :=
  lookupTest id <|> lookupTest (testIds.headD "")

/-- `const stepRows = activeTest?.rows ?? activeTest?.steps ?? []`. -/
def pageStepRows (t : Option TestDef) : List StepRow :=
  ((t.bind TestDef.rows) <|> (t.bind TestDef.steps)).getD []

/-- `const segments = activeTest?.segments ?? []`. -/
def pageSegments (t : Option TestDef) : List Segment :=
  (t.bind TestDef.segments).getD []

/-- One iteration of the `groupByStep` loop: if the step already has a
group, push the row onto that group; otherwise open a new group at the
end.  (The source keeps a JS `Map` plus an `ordered` array of keys; a JS
`Map` iterates in insertion order, so the pair is one insertion-ordered
association list, which is what we model.) -/
def addRowToGroups (gs : List (ℕ × List StepRow)) (r : StepRow) : List (ℕ × List StepRow) :=
  if gs.any fun g => g.1 == r.step then
    gs.map fun g => if g.1 == r.step then (g.1, g.2 ++ [r]) else g
  else gs ++ [(r.step, [r])]

/-- `groupByStep`: fold the rows through `addRowToGroups`, yielding one
group per distinct step number, keyed in first-seen order, each holding
its rows in row-list order. -/
def groupByStep (rows : List StepRow) : List (ℕ × List StepRow) :=
  rows.foldl addRowToGroups []

/-- `StepsTable4Col`'s body: for each group, one table row per step row;
the first row of each group carries the checkbox cell, recorded as
`(step, rowSpan)` with `rowSpan = g.rows.length` (the source's
`rowSpan={g.rows.length}` on the `idx === 0` cell). -/
def StepsTable4Col (rows : List StepRow) : List (Option (ℕ × ℕ) × StepRow) :=
  (groupByStep rows).flatMap fun g =>
    g.2.enum.map fun ir => (if ir.1 = 0 then some (g.1, g.2.length) else none, ir.2)

/-- Spec-level helper (not from the source): remove the duplicates of a
list that have already been seen, keeping each value's first occurrence;
`seen` carries the values already emitted. -/
def dedupFirstAux (seen : List ℕ) : List ℕ → List ℕ
  | [] => []
  | a :: l => if a ∈ seen then dedupFirstAux seen l else a :: dedupFirstAux (seen ++ [a]) l

/-- Spec-level helper: the distinct values of a list in order of first
occurrence. -/
def dedupKeepFirst (l : List ℕ) : List ℕ :=
  dedupFirstAux [] l

end Dressage

namespace Dressage

/-- Claim C6: `isVisible(s)` returns true iff `s` is not a member of the
hidden set, for every step and after any finite sequence of toggle calls
from any starting state. -/
theorem isStepVisible_iff_not_mem (h0 : Finset ℕ) (ops : List (ℕ × Bool)) (s : ℕ) :
    isStepVisible (applyToggles h0 ops) s = true ↔ s ∉ applyToggles h0 ops := by
  simp [isStepVisible]

/-- Claim C7: switching the active test clears the hidden set
unconditionally, so every step is visible immediately after the switch,
regardless of the prior state. -/
theorem onActiveTestChanged_all_visible (prior : Finset ℕ) (s : ℕ) :
    isStepVisible (onActiveTestChanged prior) s = true := by
  simp [isStepVisible, onActiveTestChanged]

/-- Claim C8: `toggle(s, true)` removes `s` from the hidden set,
`toggle(s, false)` inserts it, and `toggle` is idempotent: a second
identical call leaves the hidden set unchanged. -/
theorem toggleStep_spec (h : Finset ℕ) (s : ℕ) (b : Bool) :
    toggleStep h s true = h.erase s ∧
    toggleStep h s false = insert s h ∧
    toggleStep (toggleStep h s b) s b = toggleStep h s b := by
  refine ⟨rfl, rfl, ?_⟩
  cases b <;> simp [toggleStep]

/-- Claim C9: the projector adds the fixed padding constant to each axis
(it is a total function of the point), and subtracting the padding on
both axes recovers the original normalized point exactly. -/
theorem project_roundTrip (p : ℚ × ℚ) :
    (Xpx p.1, Ypx p.2) = (p.1 + PAD, p.2 + PAD) ∧
    (Xpx p.1 - PAD, Ypx p.2 - PAD) = p := by
  simp [Xpx, Ypx]

/-- Claim C1, counterexample: the seeded circle segment is anchored at
marker B, whose projected position has x-coordinate `Xpx ARENA_W = 224`,
but the circle the Renderer draws is centred at `Xpx (ARENA_W / 2) = 124`:
the circle's centre is not the projected position of the reference
marker. -/
theorem circleAt_center_ne_marker_proj :
    geom "B" = some ⟨ARENA_W, Y_MID_20⟩ ∧
    CircleAt "B" = some ⟨Xpx (ARENA_W / 2), Ypx Y_MID_20, ARENA_W / 2⟩ ∧
    Xpx (ARENA_W / 2) ≠ Xpx ARENA_W := by
  refine ⟨rfl, rfl, ?_⟩
  simp [Xpx, ARENA_W, PAD]
  norm_num

/-- Claim C1, amended: for every circle segment whose reference marker
exists in the Geometry Table, the Renderer draws a circle of radius
`ARENA_W / 2` (half the arena's short-axis width), centred horizontally
on the arena's long axis (`cx = Xpx (ARENA_W / 2)`) and vertically at the
projected y of the reference marker (`cy = Ypx p.y`); the geometry is
identical for direction left and right. -/
theorem circleSegment_geometry (a : String) (lab : Option String) (st : ℕ)
    (d : Dir) (p : Pt) (h : geom a = some p) :
    DrawSegment (.circle a d lab st) =
      .ok (some (.circleOut ⟨Xpx (ARENA_W / 2), Ypx p.y, ARENA_W / 2⟩)) ∧
    DrawSegment (.circle a .left lab st) = DrawSegment (.circle a .right lab st) := by
  simp [DrawSegment, CircleAt, h]

/-- Witness for `circleSegment_geometry` at the seeded circle at B. -/
theorem circleSegment_geometry_witness :
    DrawSegment (.circle "B" .right none 3) =
      .ok (some (.circleOut ⟨Xpx (ARENA_W / 2), Ypx Y_MID_20, ARENA_W / 2⟩)) ∧
    DrawSegment (.circle "B" .left none 3) = DrawSegment (.circle "B" .right none 3) :=
  ⟨(circleSegment_geometry "B" none 3 .right ⟨ARENA_W, Y_MID_20⟩ rfl).1,
   (circleSegment_geometry "B" none 3 .right ⟨ARENA_W, Y_MID_20⟩ rfl).2⟩

/-- Claim C2, counterexample: requesting the absent id `"noSuchTest"`
does not fail — the page silently falls back to the first test of the
store and renders the `introA` definition. -/
theorem unknownTestId_falls_back :
    lookupTest "noSuchTest" = none ∧
    activeTest "noSuchTest" = some introA ∧
    introA.id ≠ "noSuchTest" := by
  refine ⟨rfl, rfl, ?_⟩
  decide

/-- Claim C2, amended: for every test id absent from the Test Definition
Store, the page does not fail with a NotFound error; it silently falls
back to the store's first test (`introA`), so some other test's
definition is rendered (never an empty diagram, but also never an
error). -/
theorem unknownTestId_renders_first_test (id : String) (h : lookupTest id = none) :
    activeTest id = some introA := by
  unfold activeTest
  rw [h]
  rfl

/-- Witness for `unknownTestId_renders_first_test` at id `"noSuchTest"`. -/
theorem unknownTestId_renders_first_test_witness :
    activeTest "noSuchTest" = some introA :=
  unknownTestId_renders_first_test "noSuchTest" rfl

/-- Claim C4: code bug exhibited — a line segment referencing the absent
marker Z aborts with a diagnostic error, but a circle segment referencing
the same absent marker is silently omitted (`CircleAt` renders nothing
and rendering continues), contrary to the fail-loudly contract for
unknown markers. -/
theorem unknownMarker_circle_silently_omitted :
    geom "Z" = none ∧
    DrawSegment (.circle "Z" .right none 1) = .ok none ∧
    DrawSegment (.line ["Z", "A"] none 1) = .error "Unknown letter Z" := by
  refine ⟨rfl, rfl, rfl⟩

/-- Claim C3: for every visibility state, `setAll(false)` makes the
hidden set exactly the set of step numbers occurring in at least one
segment; every step with a segment becomes invisible, and a step with no
segment (rows-only, e.g. step 9 of the seeded test) that was visible
stays visible. -/
theorem toggleAllSteps_hide_spec (segs : List Segment) (prior : Finset ℕ) :
    toggleAllSteps segs prior false = (segs.map Segment.step).toFinset ∧
    (∀ s, s ∈ segs.map Segment.step →
      isStepVisible (toggleAllSteps segs prior false) s = false) ∧
    (∀ s, s ∉ segs.map Segment.step → isStepVisible prior s = true →
      isStepVisible (toggleAllSteps segs prior false) s = true) := by
  have hset : toggleAllSteps segs prior false = (segs.map Segment.step).toFinset := by
    simp [toggleAllSteps, stepsInSegments, Finset.sort_toFinset]
  refine ⟨hset, ?_, ?_⟩
  · intro s hs
    simp [hset, isStepVisible, List.mem_toFinset.mpr hs]
  · intro s hs _
    have hnm : s ∉ (segs.map Segment.step).toFinset := fun hmem => hs (List.mem_toFinset.mp hmem)
    simp [hset, isStepVisible, hnm]

/-- Witness for `toggleAllSteps_hide_spec` on the seeded test with prior
state `{2}` hidden: step 1 (has segments) becomes hidden, step 9
(rows-only, previously visible) stays visible. -/
theorem toggleAllSteps_hide_spec_witness :
    isStepVisible (toggleAllSteps (pageSegments (activeTest "introA")) {2} false) 1 = false ∧
    isStepVisible (toggleAllSteps (pageSegments (activeTest "introA")) {2} false) 9 = true :=
  ⟨(toggleAllSteps_hide_spec (pageSegments (activeTest "introA")) {2}).2.1 1 (by decide),
   (toggleAllSteps_hide_spec (pageSegments (activeTest "introA")) {2}).2.2 9 (by decide) (by decide)⟩

/-- Claim C5: on the seeded test, hiding step 3 removes exactly the
circle at B from the drawn segments — the other seven segments are drawn
unchanged in stored order; `isVisible(3)` is false, `isVisible(1)` is
true; and all eleven marker labels still resolve (label drawing does not
depend on the hidden set at all in the model). -/
theorem renderer_hide_step3_scenario :
    pageSegments (activeTest "introA") =
      [ line 1 ["A", "X", "C"], line 2 ["C", "M"], circle 3 "B" .right
      , line 4 ["K", "X", "M"], circle 5 "E" .left, line 6 ["E", "C", "H"]
      , line 7 ["H", "X", "F"], line 8 ["F", "A", "X"] ] ∧
    drawnSegments (pageSegments (activeTest "introA")) (toggleStep ∅ 3 false) =
      [ line 1 ["A", "X", "C"], line 2 ["C", "M"]
      , line 4 ["K", "X", "M"], circle 5 "E" .left, line 6 ["E", "C", "H"]
      , line 7 ["H", "X", "F"], line 8 ["F", "A", "X"] ] ∧
    isStepVisible (toggleStep ∅ 3 false) 3 = false ∧
    isStepVisible (toggleStep ∅ 3 false) 1 = true ∧
    LETTERS.length = 11 ∧
    (LETTERS.all fun id => (labelPos id).toOption.isSome) = true := by
  refine ⟨rfl, ?_, by decide, by decide, rfl, by decide⟩
  decide

theorem mem_dedupFirstAux (l : List ℕ) : ∀ (seen : List ℕ) (x : ℕ),
    x ∈ dedupFirstAux seen l ↔ x ∈ l ∧ x ∉ seen := by
  induction l with
  | nil => intro seen x; simp [dedupFirstAux]
  | cons a t ih =>
    intro seen x
    by_cases ha : a ∈ seen
    · rw [dedupFirstAux, if_pos ha, ih]
      constructor
      · rintro ⟨hx, hs⟩; exact ⟨List.mem_cons_of_mem a hx, hs⟩
      · rintro ⟨hx, hs⟩
        rcases List.mem_cons.mp hx with rfl | hx
        · exact absurd ha hs
        · exact ⟨hx, hs⟩
    · rw [dedupFirstAux, if_neg ha, List.mem_cons, ih]
      constructor
      · rintro (rfl | ⟨hx, hs⟩)
        · exact ⟨List.mem_cons_self x t, ha⟩
        · refine ⟨List.mem_cons_of_mem a hx, fun h => hs ?_⟩
          exact List.mem_append_left _ h
      · rintro ⟨hx, hs⟩
        rcases List.mem_cons.mp hx with rfl | hx
        · exact Or.inl rfl
        · by_cases hxa : x = a
          · exact Or.inl hxa
          · refine Or.inr ⟨hx, fun h => ?_⟩
            rcases List.mem_append.mp h with h | h
            · exact hs h
            · exact hxa (List.mem_singleton.mp h)

theorem nodup_dedupFirstAux (l : List ℕ) : ∀ seen : List ℕ, (dedupFirstAux seen l).Nodup := by
  induction l with
  | nil => intro seen; simp [dedupFirstAux]
  | cons a t ih =>
    intro seen
    by_cases ha : a ∈ seen
    · rw [dedupFirstAux, if_pos ha]; exact ih seen
    · rw [dedupFirstAux, if_neg ha, List.nodup_cons]
      refine ⟨fun hmem => ?_, ih (seen ++ [a])⟩
      exact ((mem_dedupFirstAux t (seen ++ [a]) a).1 hmem).2 (by simp)

theorem addRowToGroups_keys (gs : List (ℕ × List StepRow)) (r : StepRow) :
    (addRowToGroups gs r).map Prod.fst =
      if r.step ∈ gs.map Prod.fst then gs.map Prod.fst
      else gs.map Prod.fst ++ [r.step] := by
  by_cases h : r.step ∈ gs.map Prod.fst
  · have hany : (gs.any fun g => g.1 == r.step) = true := by
      rw [List.any_eq_true]
      rcases List.mem_map.mp h with ⟨g, hg, hfst⟩
      exact ⟨g, hg, by simp [hfst]⟩
    rw [addRowToGroups, if_pos hany, if_pos h, List.map_map]
    apply List.map_congr_left
    intro g _
    by_cases hq : g.1 = r.step <;> simp [hq]
  · have hany : (gs.any fun g => g.1 == r.step) = false := by
      rw [List.any_eq_false]
      intro g hg
      simp only [beq_iff_eq]
      intro hfst
      exact h (List.mem_map.mpr ⟨g, hg, hfst⟩)
    rw [addRowToGroups, if_neg (by simp [hany]), if_neg h]
    simp

theorem foldl_addRowToGroups (rows : List StepRow) : ∀ gs : List (ℕ × List StepRow),
    rows.foldl addRowToGroups gs =
      (gs.map fun q => (q.1, q.2 ++ rows.filter fun r => r.step == q.1)) ++
      (dedupFirstAux (gs.map Prod.fst) (rows.map StepRow.step)).map
        (fun s => (s, rows.filter fun r => r.step == s)) := by
  induction rows with
  | nil =>
    intro gs
    simp [dedupFirstAux]
  | cons r rs ih =>
    intro gs
    rw [List.foldl_cons, ih (addRowToGroups gs r)]
    by_cases h : r.step ∈ gs.map Prod.fst
    · have hk : (addRowToGroups gs r).map Prod.fst = gs.map Prod.fst := by
        rw [addRowToGroups_keys, if_pos h]
      have hany : (gs.any fun g => g.1 == r.step) = true := by
        rw [List.any_eq_true]
        rcases List.mem_map.mp h with ⟨g, hg, hfst⟩
        exact ⟨g, hg, by simp [hfst]⟩
      have hfirst : (addRowToGroups gs r).map
            (fun q => (q.1, q.2 ++ rs.filter fun x => x.step == q.1)) =
          gs.map fun q => (q.1, q.2 ++ (r :: rs).filter fun x => x.step == q.1) := by
        rw [addRowToGroups, if_pos hany, List.map_map]
        apply List.map_congr_left
        intro q _
        by_cases hq : q.1 = r.step
        · have hbeq : (q.1 == r.step) = true := by simp [hq]
          have hf : ((r :: rs).filter fun x => x.step == q.1) =
              r :: rs.filter fun x => x.step == q.1 :=
            List.filter_cons_of_pos (by simp [hq])
          simp [Function.comp, hbeq, hf, List.append_assoc]
        · have hbeq : (q.1 == r.step) = false := by simp [hq]
          have hf : ((r :: rs).filter fun x => x.step == q.1) =
              rs.filter fun x => x.step == q.1 :=
            List.filter_cons_of_neg (by simpa using Ne.symm hq)
          simp [Function.comp, hbeq, hf]
      have hsecond : (dedupFirstAux ((addRowToGroups gs r).map Prod.fst)
              (rs.map StepRow.step)).map (fun s => (s, rs.filter fun x => x.step == s)) =
          (dedupFirstAux (gs.map Prod.fst) ((r :: rs).map StepRow.step)).map
            (fun s => (s, (r :: rs).filter fun x => x.step == s)) := by
        rw [hk, List.map_cons, dedupFirstAux, if_pos h]
        apply List.map_congr_left
        intro s hs
        have hsne : s ≠ r.step := by
          intro hcontr
          exact ((mem_dedupFirstAux _ _ _).1 hs).2 (hcontr ▸ h)
        rw [List.filter_cons_of_neg (by simpa using Ne.symm hsne)]
      rw [hfirst, hsecond]
    · have hk : (addRowToGroups gs r).map Prod.fst = gs.map Prod.fst ++ [r.step] := by
        rw [addRowToGroups_keys, if_neg h]
      have hany : (gs.any fun g => g.1 == r.step) = false := by
        rw [List.any_eq_false]
        intro g hg
        simp only [beq_iff_eq]
        intro hfst
        exact h (List.mem_map.mpr ⟨g, hg, hfst⟩)
      have hgs : addRowToGroups gs r = gs ++ [(r.step, [r])] := by
        rw [addRowToGroups, if_neg (by simp [hany])]
      have hfirst : (addRowToGroups gs r).map
            (fun q => (q.1, q.2 ++ rs.filter fun x => x.step == q.1)) =
          (gs.map fun q => (q.1, q.2 ++ (r :: rs).filter fun x => x.step == q.1)) ++
            [(r.step, (r :: rs).filter fun x => x.step == r.step)] := by
        rw [hgs, List.map_append]
        congr 1
        · apply List.map_congr_left
          intro q hq
          have hqne : q.1 ≠ r.step := by
            intro hcontr
            exact h (hcontr ▸ List.mem_map.mpr ⟨q, hq, rfl⟩)
          rw [List.filter_cons_of_neg (by simpa using Ne.symm hqne)]
        · simp only [List.map_cons, List.map_nil]
          rw [List.filter_cons_of_pos (by simp)]
          simp
      have hsecond : (dedupFirstAux ((addRowToGroups gs r).map Prod.fst)
              (rs.map StepRow.step)).map (fun s => (s, rs.filter fun x => x.step == s)) =
          (dedupFirstAux (gs.map Prod.fst ++ [r.step]) (rs.map StepRow.step)).map
            (fun s => (s, (r :: rs).filter fun x => x.step == s)) := by
        rw [hk]
        apply List.map_congr_left
        intro s hs
        have hsne : s ≠ r.step := by
          intro hcontr
          exact ((mem_dedupFirstAux _ _ _).1 hs).2 (by simp [hcontr])
        rw [List.filter_cons_of_neg (by simpa using Ne.symm hsne)]
      rw [hfirst, hsecond, List.map_cons, dedupFirstAux, if_neg h, List.map_cons,
        List.append_assoc]
      rfl

theorem groupByStep_eq_spec (rows : List StepRow) :
    groupByStep rows =
      (dedupKeepFirst (rows.map StepRow.step)).map
        fun s => (s, rows.filter fun r => r.step == s) := by
  have h := foldl_addRowToGroups rows []
  simpa [groupByStep, dedupKeepFirst] using h

theorem sum_map_add_nat (l : List ℕ) (f g : ℕ → ℕ) :
    (l.map fun s => f s + g s).sum = (l.map f).sum + (l.map g).sum := by
  induction l with
  | nil => simp
  | cons a t ih => simp only [List.map_cons, List.sum_cons, ih]; ring

theorem sum_indicator_of_nodup (keys : List ℕ) (n : ℕ) (hnd : keys.Nodup) :
    (keys.map fun s => if n = s then 1 else 0).sum = if n ∈ keys then 1 else 0 := by
  induction keys with
  | nil => simp
  | cons k ks ih =>
    rcases List.nodup_cons.mp hnd with ⟨hk, hnd2⟩
    by_cases hn : n = k
    · subst hn
      have hnot : n ∉ ks := hk
      simp [ih hnd2, hnot]
    · simp [hn, ih hnd2, List.mem_cons]

theorem sum_filter_lengths (rows : List StepRow) : ∀ keys : List ℕ, keys.Nodup →
    (∀ r ∈ rows, r.step ∈ keys) →
    (keys.map fun s => (rows.filter fun r => r.step == s).length).sum = rows.length := by
  induction rows with
  | nil => intro keys _ _; simp
  | cons r rs ih =>
    intro keys hnd hcov
    have hstep : ∀ s : ℕ, ((r :: rs).filter fun x => x.step == s).length
        = (if r.step = s then 1 else 0) + (rs.filter fun x => x.step == s).length := by
      intro s
      by_cases hcase : r.step = s <;> simp [List.filter_cons, hcase, Nat.add_comm]
    calc (keys.map fun s => ((r :: rs).filter fun x => x.step == s).length).sum
        = (keys.map fun s =>
            (if r.step = s then 1 else 0) + (rs.filter fun x => x.step == s).length).sum := by
          exact congrArg List.sum (List.map_congr_left fun s _ => hstep s)
      _ = (keys.map fun s => if r.step = s then 1 else 0).sum +
            (keys.map fun s => (rs.filter fun x => x.step == s).length).sum :=
          sum_map_add_nat keys _ _
      _ = 1 + rs.length := by
          rw [sum_indicator_of_nodup keys r.step hnd,
            if_pos (hcov r (List.mem_cons_self r rs)),
            ih keys hnd fun x hx => hcov x (List.mem_cons_of_mem r hx)]
      _ = (r :: rs).length := by simp [Nat.add_comm]

theorem filterMap_idxZero_enumFrom (c : ℕ × ℕ) (t : List StepRow) : ∀ n : ℕ,
    ((t.enumFrom (n + 1)).filterMap fun ir => if ir.1 = 0 then some c else none) = [] := by
  induction t with
  | nil => intro n; simp
  | cons a t ih =>
    intro n
    rw [List.enumFrom_cons, List.filterMap_cons]
    simp only [Nat.succ_ne_zero, if_false]
    exact ih (n + 1)

theorem tableGroup_checkbox (k : ℕ) (l : List StepRow) (hne : l ≠ []) :
    ((l.enum.map fun ir =>
        ((if ir.1 = 0 then some (k, l.length) else none : Option (ℕ × ℕ)), ir.2)).filterMap
      Prod.fst) = [(k, l.length)] := by
  cases l with
  | nil => exact absurd rfl hne
  | cons a t =>
    rw [List.filterMap_map]
    have hcomp : (Prod.fst ∘ fun ir : ℕ × StepRow =>
          ((if ir.1 = 0 then some (k, (a :: t).length) else none : Option (ℕ × ℕ)), ir.2))
        = fun ir : ℕ × StepRow =>
            if ir.1 = 0 then some (k, (a :: t).length) else none := rfl
    rw [hcomp, List.enum_cons, List.filterMap_cons]
    have htail := filterMap_idxZero_enumFrom (k, (a :: t).length) t 0
    simp only [show (0 : ℕ) + 1 = 1 from rfl] at htail
    simp [htail]
    intro i b hmem hi0
    have hnone := (List.filterMap_eq_nil_iff.mp htail) (i, b) hmem
    rw [hi0] at hnone
    simp at hnone

theorem table_filterMap_checkboxes : ∀ gs : List (ℕ × List StepRow),
    (∀ g ∈ gs, g.2 ≠ []) →
    ((gs.flatMap fun g => g.2.enum.map fun ir =>
        (if ir.1 = 0 then some (g.1, g.2.length) else none, ir.2)).filterMap Prod.fst)
      = gs.map fun g => (g.1, g.2.length) := by
  intro gs
  induction gs with
  | nil => intro _; simp
  | cons g gs ih =>
    intro hne
    rw [List.flatMap_cons, List.filterMap_append,
      tableGroup_checkbox g.1 g.2 (hne g (List.mem_cons_self g gs)),
      ih fun x hx => hne x (List.mem_cons_of_mem g hx)]
    rfl

theorem groupByStep_groups_ne_nil (rows : List StepRow) :
    ∀ g ∈ groupByStep rows, g.2 ≠ [] := by
  intro g hg
  rw [groupByStep_eq_spec] at hg
  rcases List.mem_map.mp hg with ⟨s, hs, rfl⟩
  have hsl : s ∈ rows.map StepRow.step := by
    unfold dedupKeepFirst at hs
    exact ((mem_dedupFirstAux _ _ _).1 hs).1
  rcases List.mem_map.mp hsl with ⟨r, hr, hrs⟩
  intro hnil
  have hmem : r ∈ rows.filter fun x => x.step == s :=
    List.mem_filter.mpr ⟨hr, by simp [hrs]⟩
  have hnil2 : rows.filter (fun x => x.step == s) = [] := hnil
  rw [hnil2] at hmem
  exact List.not_mem_nil r hmem

/-- Claim C10: table grouping yields exactly one group per distinct step
value, keyed without duplicates, in order of first occurrence in the row
list (the keys equal the first-occurrence dedup of the step column);
each group holds exactly the rows bearing its step, in row order — so a
later row whose step was already seen joins the existing group; and the
rendered table carries exactly one checkbox cell per group whose rowSpan
is the group's row count, the spans tiling the table's `rows.length`
body rows exactly. -/
theorem groupByStep_table_spec (rows : List StepRow) :
    ((groupByStep rows).map Prod.fst).Nodup ∧
    (∀ s, s ∈ (groupByStep rows).map Prod.fst ↔ s ∈ rows.map StepRow.step) ∧
    (groupByStep rows).map Prod.fst = dedupKeepFirst (rows.map StepRow.step) ∧
    (∀ p ∈ groupByStep rows, p.2 = rows.filter fun r => r.step == p.1) ∧
    (StepsTable4Col rows).filterMap Prod.fst =
      ((groupByStep rows).map fun p => (p.1, p.2.length)) ∧
    (StepsTable4Col rows).length = rows.length := by
  have hkeys : (groupByStep rows).map Prod.fst = dedupKeepFirst (rows.map StepRow.step) := by
    have hcomp2 : (Prod.fst ∘ fun s : ℕ => (s, rows.filter fun r => r.step == s)) = id := rfl
    rw [groupByStep_eq_spec, List.map_map, hcomp2, List.map_id]
  have hnodup : ((groupByStep rows).map Prod.fst).Nodup := by
    rw [hkeys]; exact nodup_dedupFirstAux _ _
  have hmem : ∀ s, s ∈ (groupByStep rows).map Prod.fst ↔ s ∈ rows.map StepRow.step := by
    intro s
    rw [hkeys]
    unfold dedupKeepFirst
    rw [mem_dedupFirstAux]
    simp
  have hgroups : ∀ p ∈ groupByStep rows, p.2 = rows.filter fun r => r.step == p.1 := by
    intro p hp
    rw [groupByStep_eq_spec] at hp
    rcases List.mem_map.mp hp with ⟨s, _, rfl⟩
    rfl
  have hsum : ((groupByStep rows).map fun p => p.2.length).sum = rows.length := by
    rw [groupByStep_eq_spec, List.map_map]
    have hcomp : ((fun p : ℕ × List StepRow => p.2.length) ∘
          fun s => (s, rows.filter fun r => r.step == s))
        = fun s => (rows.filter fun r => r.step == s).length := rfl
    rw [hcomp]
    refine sum_filter_lengths rows _ (nodup_dedupFirstAux _ _) fun r hr => ?_
    unfold dedupKeepFirst
    rw [mem_dedupFirstAux]
    exact ⟨List.mem_map.mpr ⟨r, hr, rfl⟩, List.not_mem_nil _⟩
  have hcheck : (StepsTable4Col rows).filterMap Prod.fst =
      ((groupByStep rows).map fun p => (p.1, p.2.length)) := by
    unfold StepsTable4Col
    exact table_filterMap_checkboxes (groupByStep rows) (groupByStep_groups_ne_nil rows)
  have hlen : (StepsTable4Col rows).length = rows.length := by
    unfold StepsTable4Col
    rw [List.length_flatMap]
    have hcomp : (List.length ∘ fun g : ℕ × List StepRow => g.2.enum.map fun ir =>
          ((if ir.1 = 0 then some (g.1, g.2.length) else none : Option (ℕ × ℕ)), ir.2))
        = fun g : ℕ × List StepRow => g.2.length := by
      funext g
      simp [List.enum_length]
    rw [hcomp]
    exact hsum
  exact ⟨hnodup, hmem, hkeys, hgroups, hcheck, hlen⟩

/-- Witness for `groupByStep_table_spec`: in a row list whose third row
repeats step 1 after a step-2 row, the step-1 group holds both step-1
rows (the later row joined the existing group). -/
theorem groupByStep_table_spec_witness :
    ([⟨1, "a", "b", none⟩, ⟨1, "e", "f", none⟩] : List StepRow) =
      ([⟨1, "a", "b", none⟩, ⟨2, "c", "d", none⟩, ⟨1, "e", "f", none⟩] : List StepRow).filter
        (fun r => r.step == (1 : ℕ)) :=
  (groupByStep_table_spec
      [⟨1, "a", "b", none⟩, ⟨2, "c", "d", none⟩, ⟨1, "e", "f", none⟩]).2.2.2.1
    (1, [⟨1, "a", "b", none⟩, ⟨1, "e", "f", none⟩]) (by decide)

end Dressage
